import Mathlib

/-!
# Verification of the Country API service (`main.py`)

A shallow embedding of the refresh-and-derive pipeline, the country store
and the query endpoints of `src/main.py`, together with theorems settling
the specification claims.

Modelling conventions:
* Python `None`-able values become `Option`.
* Decimal values (exchange rates, estimated GDP) are modelled as `ℚ`.
* The random multiplier `randint(1000, 2000)` is an injected parameter
  (`rand : Nat → Int`, indexed by the record's position in the batch).
* The Postgres table is a `Store` (list of rows plus a surrogate-id
  counter); `ON CONFLICT (name) DO UPDATE` becomes `upsertOne`;
  the uncommitted transaction of a failed refresh never reaches the store,
  so an aborted refresh returns the store unchanged.
* `ILIKE` is modelled by `likeMatch`: case-insensitive SQL LIKE pattern
  matching with `%`, `_` and backslash escape.
* `ORDER BY estimated_gdp DESC/ASC` follows Postgres semantics: `NULL`
  sorts as larger than every non-null value (first under `DESC`,
  last under `ASC`).
-/

deriving instance DecidableEq for Except

/-- One entry of the `currencies` array of a raw country as fetched from
the metadata source; `currencies[0].get("code")`. -/
structure RawCurrency where
  code : Option String
deriving DecidableEq, Repr

/-- A raw country object as decoded from the metadata source
(`country.get(...)` in `refresh_countries`). -/
structure RawCountry where
  name : Option String
  capital : Option String
  region : Option String
  population : Option Int
  flag : Option String
  currencies : Option (List RawCurrency)
deriving DecidableEq, Repr

/-- A row of the `countries` table. -/
structure CountryRecord where
  id : Nat
  name : String
  capital : Option String
  region : Option String
  population : Int
  currency_code : Option String
  exchange_rate : Option ℚ
  estimated_gdp : Option ℚ
  flag_url : Option String
  last_refreshed_at : String
deriving DecidableEq, Repr

/-- The values bound in one `INSERT ... ON CONFLICT (name) DO UPDATE`
statement: a record of the current batch before the store assigns an id
and the shared timestamp is attached. -/
structure PendingRecord where
  name : String
  capital : Option String
  region : Option String
  population : Int
  currency_code : Option String
  exchange_rate : Option ℚ
  estimated_gdp : Option ℚ
  flag_url : Option String
deriving DecidableEq, Repr

/-- The `countries` table: rows plus the surrogate-id sequence. -/
structure Store where
  rows : List CountryRecord
  nextId : Nat
deriving DecidableEq, Repr

/-- The summary image content drawn by the report step of
`refresh_countries`: title, `COUNT(*)`, top-5-by-GDP lines and footer. -/
structure SummaryReport where
  title : String
  total : Nat
  top5 : List (String × ℚ)
  footer : String
deriving DecidableEq, Repr

/-- Observable system state: the committed store and the cached summary
image (`cache/summary.png`), `none` when no image was ever generated. -/
structure SysState where
  store : Store
  cache : Option SummaryReport
deriving DecidableEq, Repr

/-- The error taxonomy of the service: 503 source failures, 400
validation failures, and the unhandled-exception 500 path. -/
inductive RefreshError where
  | sourceUnavailable (which : String)
  | validationError (field : String)
  | serverError
deriving DecidableEq, Repr

/-- Store-lookup miss (HTTP 404). -/
inductive StoreError where
  | notFound
deriving DecidableEq, Repr

/-! ## The GDP estimator (lines 76–86 of `main.py`) -/

/-- The currency/estimation block of the refresh loop:

    currency_code = None; exchange_rate = None; estimated_gdp = None
    if currencies and len(currencies) > 0:
        currency_code = currencies[0].get("code")
        if currency_code:
            exchange_rate = exchange_rate_data.get("rates", {}).get(currency_code)
            if exchange_rate:
                estimated_gdp = (population * randint(1000, 2000)) / exchange_rate

Python truthiness is explicit: an empty-string code and a zero rate are
falsy. Returns `(currency_code, exchange_rate, estimated_gdp)`. -/
def currencyLogic (population : Int) (currencies : Option (List RawCurrency))
    (ratesTable : List (String × ℚ)) (m : Int) :
    Option String × Option ℚ × Option ℚ :=
  match currencies with
  | some (c0 :: _) =>
    match c0.code with
    | some code =>
      if code = "" then (some code, none, none)
      else
        match ratesTable.lookup code with
        | some r =>
          if r = 0 then (some code, some r, none)
          else (some code, some r, some (((population * m : Int) : ℚ) / r))
        | none => (some code, none, none)
    | none => (none, none, none)
  | _ => (none, none, none)

/-! ## Validation and batch processing (lines 61–102) -/

/-- Validation and record construction for one raw country; the error
carries the offending field name, mirroring the two
`HTTPException(400, ...)` raises. -/
def processOne (ratesTable : List (String × ℚ)) (m : Int) (c : RawCountry) :
    Except String PendingRecord :=
  match c.name with
  | none => .error "name"
  | some n =>
    if n = "" then .error "name"
    else
      match c.population with
      | none => .error "population"
      | some pop =>
        if pop < 0 then .error "population"
        else
          let cl := currencyLogic pop c.currencies ratesTable m
          .ok { name := n
                capital := c.capital
                region := c.region
                population := pop
                currency_code := cl.1
                exchange_rate := cl.2.1
                estimated_gdp := cl.2.2
                flag_url := c.flag }

/-- The refresh loop over the fetched country list: aborts at the first
record that fails validation, otherwise collects the batch in order. -/
def processCountriesAux (ratesTable : List (String × ℚ)) (rand : Nat → Int) :
    List RawCountry → Nat → Except String (List PendingRecord)
  | [], _ => .ok []
  | c :: rest, i =>
    match processOne ratesTable (rand i) c with
    | .error f => .error f
    | .ok p =>
      match processCountriesAux ratesTable rand rest (i + 1) with
      | .error f => .error f
      | .ok ps => .ok (p :: ps)

/-- `exchange_rate_data.get("rates", {})` followed by the loop:
a missing `rates` key defaults to the empty table. -/
def processCountries (countryData : List RawCountry)
    (ratesData : Option (List (String × ℚ))) (rand : Nat → Int) :
    Except String (List PendingRecord) :=
  processCountriesAux (ratesData.getD []) rand countryData 0

/-! ## The store: upsert (lines 89–102) -/

/-- The `DO UPDATE SET` clause: overwrite every fetched/derived field of
the existing row; `id` and `name` are untouched. -/
def applyUpdate (p : PendingRecord) (ts : String) (r : CountryRecord) :
    CountryRecord :=
  { r with
    capital := p.capital
    region := p.region
    population := p.population
    currency_code := p.currency_code
    exchange_rate := p.exchange_rate
    estimated_gdp := p.estimated_gdp
    flag_url := p.flag_url
    last_refreshed_at := ts }

/-- `INSERT ... ON CONFLICT (name) DO UPDATE`: update every row whose
`name` equals the new record's name exactly, otherwise append a fresh row
with the next surrogate id. -/
def upsertOne (s : Store) (p : PendingRecord) (ts : String) : Store :=
  if s.rows.any (fun r => r.name = p.name) then
    { s with rows :=
        s.rows.map (fun r => if r.name = p.name then applyUpdate p ts r else r) }
  else
    { rows := s.rows ++
        [{ id := s.nextId
           name := p.name
           capital := p.capital
           region := p.region
           population := p.population
           currency_code := p.currency_code
           exchange_rate := p.exchange_rate
           estimated_gdp := p.estimated_gdp
           flag_url := p.flag_url
           last_refreshed_at := ts }]
      nextId := s.nextId + 1 }

/-- The whole batch of inserts, in loop order, all sharing the one
timestamp computed before the loop. -/
def upsertAll (s : Store) (ps : List PendingRecord) (ts : String) : Store :=
  ps.foldl (fun acc p => upsertOne acc p ts) s

/-! ## Report generation (lines 107–134) -/

/-- Descending-GDP order on the `(name, estimated_gdp)` projections used
by the top-5 query of the report step. -/
def pairGdpDescRel (a b : String × ℚ) : Prop := b.2 ≤ a.2

instance : DecidableRel pairGdpDescRel := fun a b => Rat.instDecidableLe b.2 a.2

/-- `SELECT name, estimated_gdp FROM countries WHERE estimated_gdp IS NOT
NULL ORDER BY estimated_gdp DESC LIMIT 5`. -/
def topGdp (s : Store) : List (String × ℚ) :=
  (List.insertionSort pairGdpDescRel
    (s.rows.filterMap (fun r => r.estimated_gdp.map (fun g => (r.name, g))))).take 5

/-- The summary image drawn after a successful commit: title line,
`COUNT(*)` line, top-5 list and the batch-timestamp footer. -/
def generateReport (s : Store) (ts : String) : SummaryReport :=
  { title := "Country Summary"
    total := s.rows.length
    top5 := topGdp s
    footer := ts }

/-! ## The refresh endpoint `POST /countries/refresh` (lines 45–138) -/

/-- `refresh_countries`: the whole pipeline. The two fetches are injected
as `Except`-valued inputs (a `.error` is a transport or decoding failure
caught by the corresponding `try/except`); the decoded rates response is
`none` when the JSON lacks a `rates` key. `rand` injects the per-record
`randint(1000, 2000)` draws, `now` the shared timestamp, and `reportOk`
whether the image generation/persistence step succeeds. Returns the new
observable state and the HTTP outcome. The report step has no exception
handler in the source, so its failure surfaces as a server error after
the commit has already happened. -/
def refresh_countries (fetchCountries : Except Unit (List RawCountry))
    (fetchRates : Except Unit (Option (List (String × ℚ))))
    (rand : Nat → Int) (now : String) (reportOk : Bool)
    (st : SysState) : SysState × Except RefreshError Unit :=
  match fetchCountries with
  | .error _ => (st, .error (.sourceUnavailable "Rest Countries"))
  | .ok countryData =>
    match fetchRates with
    | .error _ => (st, .error (.sourceUnavailable "Exchange Rate API"))
    | .ok ratesData =>
      match processCountries countryData ratesData rand with
      | .error f => (st, .error (.validationError f))
      | .ok ps =>
        let committed := upsertAll st.store ps now
        if reportOk then
          ({ store := committed, cache := some (generateReport committed now) },
           .ok ())
        else
          ({ store := committed, cache := st.cache }, .error .serverError)

/-! ## ILIKE pattern matching -/

/-- Case-insensitive comparison of one pattern character with one subject
character. -/
def charEqCI (p c : Char) : Bool := p.toLower == c.toLower

/-- `anySuffix f s` is true when `f` accepts some suffix of `s`
(including `s` itself and the empty suffix). -/
def anySuffix (f : List Char → Bool) : List Char → Bool
  | [] => f []
  | c :: s => f (c :: s) || anySuffix f s

/-- One token of a parsed LIKE pattern: `%`, `_`, or a literal
character. -/
inductive LikeTok where
  | anySeq
  | anyOne
  | lit (c : Char)
deriving DecidableEq, Repr

/-- Parse a LIKE pattern: `%` and `_` become wildcards, a backslash
escapes the following pattern character, and a pattern ending in a bare
escape character is invalid (Postgres rejects it; it matches nothing
here). -/
def lexLike : List Char → Option (List LikeTok)
  | [] => some []
  | p :: ps =>
    if p = '%' then (lexLike ps).map (LikeTok.anySeq :: ·)
    else if p = '_' then (lexLike ps).map (LikeTok.anyOne :: ·)
    else if p = '\\' then
      match ps with
      | [] => none
      | q :: ps2 => (lexLike ps2).map (LikeTok.lit q :: ·)
    else (lexLike ps).map (LikeTok.lit p :: ·)

/-- Match a parsed LIKE pattern against a subject, character classes
compared case-insensitively (`ILIKE`). -/
def tokMatch : List LikeTok → List Char → Bool
  | [], s => s.isEmpty
  | .anySeq :: ts, s => anySuffix (tokMatch ts) s
  | .anyOne :: _, [] => false
  | .anyOne :: ts, _ :: s2 => tokMatch ts s2
  | .lit _ :: _, [] => false
  | .lit q :: ts, c :: s2 => charEqCI q c && tokMatch ts s2

/-- `subject ILIKE pattern` on strings: SQL LIKE pattern matching with
`%` (any sequence), `_` (any one character) and backslash escape, all
character comparisons case-insensitive. -/
def ilike (subject pattern : String) : Bool :=
  match lexLike pattern.data with
  | some ts => tokMatch ts subject.data
  | none => false

/-! ## Query endpoints (lines 140–237) -/

/-- Python truthiness of an optional string parameter: `None` and the
empty string are falsy (`if region:` etc.). -/
def strTruthy : Option String → Bool
  | some s => !(s == "")
  | none => false

/-- `sort.lower()`, modelled character-wise. -/
def strLower (s : String) : List Char := s.data.map Char.toLower

/-- Postgres `ORDER BY estimated_gdp DESC` order: `NULL` sorts as larger
than every non-null value, hence first under `DESC`. -/
def gdpDescLE (a b : CountryRecord) : Bool :=
  match a.estimated_gdp, b.estimated_gdp with
  | none, _ => true
  | some _, none => false
  | some x, some y => decide (y ≤ x)

/-- Postgres `ORDER BY estimated_gdp ASC` order: `NULL` last. -/
def gdpAscLE (a b : CountryRecord) : Bool :=
  match a.estimated_gdp, b.estimated_gdp with
  | _, none => true
  | none, some _ => false
  | some x, some y => decide (x ≤ y)

/-- `gdpDescLE` as a relation, for `List.insertionSort`. -/
def gdpDescRel (a b : CountryRecord) : Prop := gdpDescLE a b = true

/-- `gdpAscLE` as a relation. -/
def gdpAscRel (a b : CountryRecord) : Prop := gdpAscLE a b = true

instance : DecidableRel gdpDescRel := fun a b => instDecidableEqBool (gdpDescLE a b) true

instance : DecidableRel gdpAscRel := fun a b => instDecidableEqBool (gdpAscLE a b) true

/-- `AND region ILIKE '{region}'` (a `NULL` column never matches). -/
def filterRegion (region : Option String) (rows : List CountryRecord) :
    List CountryRecord :=
  if strTruthy region then
    rows.filter (fun r => r.region.elim false (fun v => ilike v (region.getD "")))
  else rows

/-- `AND currency_code ILIKE '{currency}'`. -/
def filterCurrency (currency : Option String) (rows : List CountryRecord) :
    List CountryRecord :=
  if strTruthy currency then
    rows.filter (fun r =>
      r.currency_code.elim false (fun v => ilike v (currency.getD "")))
  else rows

/-- The `ORDER BY` clause appended for recognized sort values; any other
value leaves the row order unchanged. -/
def applySort (sort : Option String) (rows : List CountryRecord) :
    List CountryRecord :=
  if strTruthy sort then
    if strLower (sort.getD "") = "gdp_desc".data then
      List.insertionSort gdpDescRel rows
    else if strLower (sort.getD "") = "gdp_asc".data then
      List.insertionSort gdpAscRel rows
    else rows
  else rows

/-- `GET /countries` (`get_countries_with_filtering`): conjunctive ILIKE
filters, optional GDP sort, and a 404 on an empty result set. -/
def get_countries_with_filtering (region currency sort : Option String)
    (s : Store) : Except StoreError (List CountryRecord) :=
  let results :=
    if strTruthy region || strTruthy currency || strTruthy sort then
      applySort sort (filterCurrency currency (filterRegion region s.rows))
    else s.rows
  if results.isEmpty then .error .notFound else .ok results

/-- `GET /countries/{name}` (`get_country_by_name`):
`SELECT * FROM countries WHERE name ILIKE %s` with `fetchone()`. -/
def get_country_by_name (name : String) (s : Store) :
    Except StoreError CountryRecord :=
  match s.rows.find? (fun r => ilike r.name name) with
  | some r => .ok r
  | none => .error .notFound

/-- `DELETE /countries/{name}` (`delete_country_by_name`): case-sensitive
exact probe, 404 when absent, otherwise delete all rows with exactly that
name and commit. Returns the new store and the HTTP outcome. -/
def delete_country_by_name (name : String) (s : Store) :
    Store × Except StoreError Unit :=
  if s.rows.any (fun r => r.name = name) then
    ({ s with rows := s.rows.filter (fun r => !(r.name = name : Bool)) }, .ok ())
  else
    (s, .error .notFound)

/-- `SELECT MAX(last_refreshed_at)` over the text column. -/
def maxTimestamp (rows : List CountryRecord) : Option String :=
  rows.foldl
    (fun acc r =>
      match acc with
      | none => some r.last_refreshed_at
      | some m => some (if m < r.last_refreshed_at then r.last_refreshed_at else m))
    none

/-- `GET /status` (`get_status`): `COUNT(*)` and the maximum
`last_refreshed_at`. -/
def get_status (s : Store) : Nat × Option String :=
  (s.rows.length, maxTimestamp s.rows)

/-! ## Helper lemmas: estimator -/

lemma currencyLogic_none_currencies (population : Int)
    (ratesTable : List (String × ℚ)) (m : Int) :
    currencyLogic population none ratesTable m = (none, none, none) := rfl

lemma currencyLogic_nil_currencies (population : Int)
    (ratesTable : List (String × ℚ)) (m : Int) :
    currencyLogic population (some []) ratesTable m = (none, none, none) := rfl

/-! ## Helper lemmas: validation -/

/-- A raw country that the refresh loop rejects: falsy `name` (missing or
empty) or missing/negative `population`. -/
def countryInvalid (c : RawCountry) : Bool :=
  (match c.name with | none => true | some n => n == "") ||
  (match c.population with | none => true | some p => decide (p < 0))

lemma processOne_error_of_invalid (ratesTable : List (String × ℚ)) (m : Int)
    (c : RawCountry) (h : countryInvalid c = true) :
    ∃ f, processOne ratesTable m c = .error f ∧ (f = "name" ∨ f = "population") := by
  unfold countryInvalid at h
  unfold processOne
  cases hn : c.name with
  | none => exact ⟨"name", rfl, Or.inl rfl⟩
  | some n =>
    by_cases hne : n = ""
    · exact ⟨"name", by simp [hne], Or.inl rfl⟩
    · cases hp : c.population with
      | none => exact ⟨"population", by simp [hne], Or.inr rfl⟩
      | some pop =>
        have hlt : pop < 0 := by
          rw [hn, hp] at h
          simpa [hne] using h
        exact ⟨"population", by simp [hne, hlt], Or.inr rfl⟩

lemma processOne_ok_of_valid (ratesTable : List (String × ℚ)) (m : Int)
    (c : RawCountry) (h : countryInvalid c = false) :
    ∃ p, processOne ratesTable m c = .ok p := by
  unfold countryInvalid at h
  unfold processOne
  cases hn : c.name with
  | none => simp [hn] at h
  | some n =>
    cases hp : c.population with
    | none => rw [hn, hp] at h; simp at h
    | some pop =>
      rw [hn, hp] at h
      simp only [Bool.or_eq_false_iff] at h
      obtain ⟨h1, h2⟩ := h
      have hne : ¬(n = "") := by simpa using h1
      have hge : ¬(pop < 0) := by simpa using h2
      refine ⟨{ name := n
                capital := c.capital
                region := c.region
                population := pop
                currency_code := (currencyLogic pop c.currencies ratesTable m).1
                exchange_rate := (currencyLogic pop c.currencies ratesTable m).2.1
                estimated_gdp := (currencyLogic pop c.currencies ratesTable m).2.2
                flag_url := c.flag }, ?_⟩
      simp [hne, hge]

lemma processCountriesAux_error_of_invalid (ratesTable : List (String × ℚ))
    (rand : Nat → Int) (l : List RawCountry) (i : Nat)
    (h : ∃ c ∈ l, countryInvalid c = true) :
    ∃ f, processCountriesAux ratesTable rand l i = .error f ∧
      (f = "name" ∨ f = "population") := by
  induction l generalizing i with
  | nil => simp at h
  | cons c rest ih =>
    by_cases hc : countryInvalid c = true
    · obtain ⟨f, hf, hfs⟩ := processOne_error_of_invalid ratesTable (rand i) c hc
      exact ⟨f, by simp [processCountriesAux, hf], hfs⟩
    · have hrest : ∃ c2 ∈ rest, countryInvalid c2 = true := by
        obtain ⟨c2, hc2mem, hc2⟩ := h
        rcases List.mem_cons.mp hc2mem with rfl | hmem
        · exact absurd hc2 hc
        · exact ⟨c2, hmem, hc2⟩
      obtain ⟨p, hp⟩ := processOne_ok_of_valid ratesTable (rand i) c
        (Bool.not_eq_true _ ▸ hc)
      obtain ⟨f, hf, hfs⟩ := ih (i + 1) hrest
      exact ⟨f, by simp [processCountriesAux, hp, hf], hfs⟩

lemma processCountriesAux_ok_of_valid (ratesTable : List (String × ℚ))
    (rand : Nat → Int) (l : List RawCountry) (i : Nat)
    (h : ∀ c ∈ l, countryInvalid c = false) :
    ∃ ps, processCountriesAux ratesTable rand l i = .ok ps := by
  induction l generalizing i with
  | nil => exact ⟨[], rfl⟩
  | cons c rest ih =>
    obtain ⟨p, hp⟩ := processOne_ok_of_valid ratesTable (rand i) c
      (h c (List.mem_cons_self c rest))
    obtain ⟨ps, hps⟩ := ih (i + 1) (fun c2 hc2 => h c2 (List.mem_cons_of_mem c hc2))
    exact ⟨p :: ps, by simp [processCountriesAux, hp, hps]⟩

/-! ## Helper lemmas: upsert -/

lemma applyUpdate_name (p : PendingRecord) (ts : String) (r : CountryRecord) :
    (applyUpdate p ts r).name = r.name := rfl

lemma applyUpdate_ts (p : PendingRecord) (ts : String) (r : CountryRecord) :
    (applyUpdate p ts r).last_refreshed_at = ts := rfl

lemma upsertOne_ts_preserved (s : Store) (p : PendingRecord) (ts : String)
    (n : String) (h : ∀ r ∈ s.rows, r.name = n → r.last_refreshed_at = ts) :
    ∀ r ∈ (upsertOne s p ts).rows, r.name = n → r.last_refreshed_at = ts := by
  intro r hr hn
  unfold upsertOne at hr
  by_cases hA : s.rows.any (fun r => r.name = p.name)
  · simp only [hA, if_pos] at hr
    simp only [List.mem_map] at hr
    obtain ⟨r0, hr0, hre⟩ := hr
    by_cases hname : r0.name = p.name
    · rw [← hre, if_pos hname, applyUpdate_ts]
    · rw [← hre, if_neg hname] at hn ⊢
      exact h r0 hr0 hn
  · simp only [hA, if_neg, Bool.false_eq_true, not_false_iff] at hr
    simp only [List.mem_append, List.mem_singleton] at hr
    rcases hr with hr | hr
    · exact h r hr hn
    · rw [hr]
  
lemma upsertOne_ts_set (s : Store) (p : PendingRecord) (ts : String) :
    ∀ r ∈ (upsertOne s p ts).rows, r.name = p.name → r.last_refreshed_at = ts := by
  intro r hr hn
  unfold upsertOne at hr
  by_cases hA : s.rows.any (fun r => r.name = p.name)
  · simp only [hA, if_pos] at hr
    simp only [List.mem_map] at hr
    obtain ⟨r0, hr0, hre⟩ := hr
    by_cases hname : r0.name = p.name
    · rw [← hre, if_pos hname, applyUpdate_ts]
    · rw [← hre, if_neg hname] at hn
      exact absurd hn hname
  · simp only [hA, if_neg, Bool.false_eq_true, not_false_iff] at hr
    simp only [List.mem_append, List.mem_singleton] at hr
    rcases hr with hr | hr
    · exfalso
      rw [List.any_eq_true] at hA
      exact hA ⟨r, hr, by simp [hn]⟩
    · rw [hr]

lemma upsertOne_name_exists (s : Store) (p : PendingRecord) (ts : String) :
    ∃ r ∈ (upsertOne s p ts).rows, r.name = p.name := by
  unfold upsertOne
  by_cases hA : s.rows.any (fun r => r.name = p.name) = true
  · rw [if_pos hA]
    obtain ⟨r0, hr0, he⟩ := List.any_eq_true.mp hA
    have he2 : r0.name = p.name := by simpa using he
    exact ⟨applyUpdate p ts r0, List.mem_map.mpr ⟨r0, hr0, by rw [if_pos he2]⟩,
      by rw [applyUpdate_name, he2]⟩
  · rw [if_neg hA]
    refine ⟨{ id := s.nextId, name := p.name, capital := p.capital,
              region := p.region, population := p.population,
              currency_code := p.currency_code, exchange_rate := p.exchange_rate,
              estimated_gdp := p.estimated_gdp, flag_url := p.flag_url,
              last_refreshed_at := ts }, ?_, rfl⟩
    exact List.mem_append.mpr (Or.inr (List.mem_singleton.mpr rfl))

lemma upsertOne_name_exists_preserved (s : Store) (p : PendingRecord)
    (ts : String) (n : String) (h : ∃ r ∈ s.rows, r.name = n) :
    ∃ r ∈ (upsertOne s p ts).rows, r.name = n := by
  obtain ⟨r0, hr0, he⟩ := h
  unfold upsertOne
  by_cases hA : s.rows.any (fun r => r.name = p.name)
  · by_cases hname : r0.name = p.name
    · refine ⟨applyUpdate p ts r0, ?_, applyUpdate_name p ts r0 ▸ he⟩
      simp only [hA, if_pos, List.mem_map]
      exact ⟨r0, hr0, by rw [if_pos hname]⟩
    · refine ⟨r0, ?_, he⟩
      simp only [hA, if_pos, List.mem_map]
      exact ⟨r0, hr0, by rw [if_neg hname]⟩
  · refine ⟨r0, ?_, he⟩
    simp only [hA, Bool.false_eq_true, not_false_iff, if_neg, List.mem_append]
    exact Or.inl hr0

lemma upsertAll_ts_preserved (ps : List PendingRecord) (s : Store) (ts : String)
    (n : String) (h : ∀ r ∈ s.rows, r.name = n → r.last_refreshed_at = ts) :
    ∀ r ∈ (upsertAll s ps ts).rows, r.name = n → r.last_refreshed_at = ts := by
  induction ps generalizing s with
  | nil => exact h
  | cons p rest ih => exact ih (upsertOne s p ts) (upsertOne_ts_preserved s p ts n h)

lemma upsertAll_name_exists_preserved (ps : List PendingRecord) (s : Store)
    (ts : String) (n : String) (h : ∃ r ∈ s.rows, r.name = n) :
    ∃ r ∈ (upsertAll s ps ts).rows, r.name = n := by
  induction ps generalizing s with
  | nil => exact h
  | cons p rest ih => exact ih (upsertOne s p ts) (upsertOne_name_exists_preserved s p ts n h)

lemma upsertAll_batch_member (ps : List PendingRecord) (s : Store) (ts : String)
    (p : PendingRecord) (hp : p ∈ ps) :
    (∀ r ∈ (upsertAll s ps ts).rows, r.name = p.name → r.last_refreshed_at = ts) ∧
    (∃ r ∈ (upsertAll s ps ts).rows, r.name = p.name) := by
  induction ps generalizing s with
  | nil => simp at hp
  | cons q rest ih =>
    rcases List.mem_cons.mp hp with rfl | hmem
    · by_cases hrest : p ∈ rest
      · exact ih (upsertOne s p ts) hrest
      · constructor
        · exact upsertAll_ts_preserved rest (upsertOne s p ts) ts p.name
            (upsertOne_ts_set s p ts)
        · exact upsertAll_name_exists_preserved rest (upsertOne s p ts) ts p.name
            (upsertOne_name_exists s p ts)
    · exact ih (upsertOne s q ts) hmem

/-! ## Helper lemmas: the refresh pipeline -/

lemma refresh_countries_of_validation_error (countryData : List RawCountry)
    (ratesData : Option (List (String × ℚ))) (rand : Nat → Int) (now : String)
    (reportOk : Bool) (st : SysState) (f : String)
    (h : processCountries countryData ratesData rand = .error f) :
    refresh_countries (.ok countryData) (.ok ratesData) rand now reportOk st =
      (st, .error (.validationError f)) := by
  simp [refresh_countries, h]

lemma refresh_countries_of_ok (countryData : List RawCountry)
    (ratesData : Option (List (String × ℚ))) (rand : Nat → Int) (now : String)
    (st : SysState) (ps : List PendingRecord)
    (h : processCountries countryData ratesData rand = .ok ps) :
    refresh_countries (.ok countryData) (.ok ratesData) rand now true st =
      ({ store := upsertAll st.store ps now
         cache := some (generateReport (upsertAll st.store ps now) now) }, .ok ()) := by
  simp [refresh_countries, h]

lemma refresh_countries_of_report_failure (countryData : List RawCountry)
    (ratesData : Option (List (String × ℚ))) (rand : Nat → Int) (now : String)
    (st : SysState) (ps : List PendingRecord)
    (h : processCountries countryData ratesData rand = .ok ps) :
    refresh_countries (.ok countryData) (.ok ratesData) rand now false st =
      ({ store := upsertAll st.store ps now, cache := st.cache },
       .error .serverError) := by
  simp [refresh_countries, h]

lemma refresh_countries_ok_inversion (countryData : List RawCountry)
    (ratesData : Option (List (String × ℚ))) (rand : Nat → Int) (now : String)
    (reportOk : Bool) (st st' : SysState) (u : Unit)
    (h : refresh_countries (.ok countryData) (.ok ratesData) rand now reportOk st =
      (st', .ok u)) :
    ∃ ps, processCountries countryData ratesData rand = .ok ps ∧
      st'.store = upsertAll st.store ps now := by
  cases hps : processCountries countryData ratesData rand with
  | error f =>
    rw [refresh_countries_of_validation_error _ _ _ _ _ _ _ hps] at h
    exact absurd (congrArg Prod.snd h) (by simp)
  | ok ps =>
    cases reportOk with
    | true =>
      rw [refresh_countries_of_ok _ _ _ _ _ _ hps, Prod.mk.injEq] at h
      obtain ⟨h1, -⟩ := h
      refine ⟨ps, rfl, ?_⟩
      rw [← h1]
    | false =>
      rw [refresh_countries_of_report_failure _ _ _ _ _ _ hps] at h
      exact absurd (congrArg Prod.snd h) (by simp)

/-! ## Helper lemmas: ILIKE -/

/-- A LIKE pattern containing no wildcard (`%`, `_`) and no escape
character. -/
def plainPattern (s : String) : Bool :=
  s.data.all (fun c => !(c == '%') && !(c == '_') && !(c == '\\'))

/-- Case-insensitive string equality, character-wise. -/
def ciEq (a b : String) : Bool :=
  a.data.map Char.toLower == b.data.map Char.toLower

lemma lexLike_plain (ps : List Char)
    (hps : ∀ c ∈ ps, ¬(c = '%') ∧ ¬(c = '_') ∧ ¬(c = '\\')) :
    lexLike ps = some (ps.map LikeTok.lit) := by
  induction ps with
  | nil => rfl
  | cons p ps ih =>
    obtain ⟨h1, h2, h3⟩ := hps p (List.mem_cons_self p ps)
    have htail : ∀ c ∈ ps, ¬(c = '%') ∧ ¬(c = '_') ∧ ¬(c = '\\') :=
      fun c hc => hps c (List.mem_cons_of_mem p hc)
    rw [lexLike.eq_def]
    simp [h1, h2, h3, ih htail]

lemma tokMatch_lits (ps : List Char) (s : List Char) :
    tokMatch (ps.map LikeTok.lit) s = true ↔
      s.map Char.toLower = ps.map Char.toLower := by
  induction ps generalizing s with
  | nil =>
    cases s with
    | nil => simp [tokMatch]
    | cons c s2 => simp [tokMatch]
  | cons p ps ih =>
    cases s with
    | nil => simp [tokMatch]
    | cons c s2 =>
      simp only [List.map_cons, tokMatch, Bool.and_eq_true, List.cons.injEq]
      constructor
      · intro hand
        obtain ⟨hc, hrest⟩ := hand
        have hpc : p.toLower = c.toLower := by simpa [charEqCI] using hc
        exact ⟨hpc.symm, (ih s2).mp hrest⟩
      · intro heq
        obtain ⟨hc, hrest⟩ := heq
        exact ⟨by simp [charEqCI, hc], (ih s2).mpr hrest⟩

lemma ilike_plain (subject pattern : String) (h : plainPattern pattern = true) :
    ilike subject pattern = ciEq subject pattern := by
  have hps : ∀ c ∈ pattern.data, ¬(c = '%') ∧ ¬(c = '_') ∧ ¬(c = '\\') := by
    intro c hc
    have := (List.all_eq_true.mp h) c hc
    simp only [Bool.and_eq_true, Bool.not_eq_true', beq_eq_false_iff_ne] at this
    exact ⟨this.1.1, this.1.2, this.2⟩
  unfold ilike ciEq
  rw [lexLike_plain pattern.data hps]
  rw [Bool.eq_iff_iff, beq_iff_eq]
  exact tokMatch_lits pattern.data subject.data

/-! ## Helper lemmas: name lookup -/

lemma get_country_by_name_ok (name : String) (s : Store) (r : CountryRecord)
    (h : get_country_by_name name s = .ok r) :
    r ∈ s.rows ∧ ilike r.name name = true := by
  unfold get_country_by_name at h
  cases hf : s.rows.find? (fun r => ilike r.name name) with
  | none => rw [hf] at h; exact absurd h (by simp)
  | some r0 =>
    rw [hf] at h
    have hr0 : r0 = r := by
      have := h
      simp only [Except.ok.injEq] at this
      exact this
    subst hr0
    have hp := List.find?_some hf
    have hm := List.mem_of_find?_eq_some hf
    exact ⟨hm, by simpa using hp⟩

lemma get_country_by_name_notFound_iff (name : String) (s : Store) :
    get_country_by_name name s = .error .notFound ↔
      ∀ r ∈ s.rows, ilike r.name name = false := by
  unfold get_country_by_name
  cases hf : s.rows.find? (fun r => ilike r.name name) with
  | none =>
    simp only [true_iff]
    intro r hr
    have := List.find?_eq_none.mp hf r hr
    simpa using this
  | some r0 =>
    constructor
    · intro h; exact absurd h (by simp)
    · intro hall
      have := List.find?_some hf
      have hmem := List.mem_of_find?_eq_some hf
      rw [hall r0 hmem] at this
      exact absurd this (by simp)

/-! ## Helper lemmas: GDP ordering -/

instance : IsTotal CountryRecord gdpDescRel := by
  constructor
  intro a b
  unfold gdpDescRel gdpDescLE
  cases a.estimated_gdp with
  | none => left; rfl
  | some x =>
    cases b.estimated_gdp with
    | none => right; rfl
    | some y =>
      rcases le_total y x with h | h
      · left; simpa using h
      · right; simpa using h

instance : IsTrans CountryRecord gdpDescRel := by
  constructor
  intro a b c hab hbc
  unfold gdpDescRel gdpDescLE at hab hbc ⊢
  cases ha : a.estimated_gdp with
  | none => rfl
  | some x =>
    rw [ha] at hab
    cases hb : b.estimated_gdp with
    | none => rw [hb] at hab; exact absurd hab (by simp)
    | some y =>
      rw [hb] at hab hbc
      cases hc : c.estimated_gdp with
      | none => rw [hc] at hbc; exact absurd hbc (by simp)
      | some z =>
        rw [hc] at hbc
        have h1 : y ≤ x := by simpa using hab
        have h2 : z ≤ y := by simpa using hbc
        simpa using le_trans h2 h1

lemma applySort_unrecognized (sortVal : Option String)
    (h1 : ¬(strLower (sortVal.getD "") = "gdp_desc".data))
    (h2 : ¬(strLower (sortVal.getD "") = "gdp_asc".data))
    (rows : List CountryRecord) : applySort sortVal rows = rows := by
  unfold applySort
  rcases ht : strTruthy sortVal with _ | _
  · rfl
  · rw [if_pos rfl, if_neg h1, if_neg h2]

lemma applySort_desc (sortVal : String)
    (h : strLower sortVal = "gdp_desc".data)
    (rows : List CountryRecord) :
    applySort (some sortVal) rows = List.insertionSort gdpDescRel rows := by
  have hne : ¬(sortVal = "") := by
    intro he
    rw [he] at h
    exact absurd h (by decide)
  unfold applySort
  have ht : strTruthy (some sortVal) = true := by simpa [strTruthy] using hne
  rw [ht, if_pos rfl]
  simp only [Option.getD_some]
  rw [if_pos h]

/-! ## Helper lemmas: currency logic with an empty or missing rate table -/

lemma currencyLogic_empty_table (population : Int)
    (currencies : Option (List RawCurrency)) (m : Int) :
    (currencyLogic population currencies [] m).2.1 = none ∧
    (currencyLogic population currencies [] m).2.2 = none := by
  rcases currencies with _ | ⟨_ | ⟨c0, rest⟩⟩
  · exact ⟨rfl, rfl⟩
  · exact ⟨rfl, rfl⟩
  · rcases hc : c0.code with _ | code
    · simp [currencyLogic, hc]
    · by_cases hce : code = "" <;> simp [currencyLogic, hc, hce, List.lookup]

lemma processOne_empty_table (m : Int) (c : RawCountry) (p : PendingRecord)
    (h : processOne [] m c = .ok p) :
    p.exchange_rate = none ∧ p.estimated_gdp = none := by
  unfold processOne at h
  cases hn : c.name with
  | none => rw [hn] at h; exact absurd h (by simp)
  | some n =>
    simp only [hn] at h
    by_cases hne : n = ""
    · rw [if_pos hne] at h; exact absurd h (by simp)
    · rw [if_neg hne] at h
      cases hp : c.population with
      | none => simp only [hp] at h; exact absurd h (by simp)
      | some pop =>
        simp only [hp] at h
        by_cases hlt : pop < 0
        · rw [if_pos hlt] at h; exact absurd h (by simp)
        · rw [if_neg hlt] at h
          simp only [Except.ok.injEq] at h
          obtain ⟨h1, h2⟩ := currencyLogic_empty_table pop c.currencies m
          rw [← h]
          exact ⟨h1, h2⟩

lemma processCountriesAux_empty_table (rand : Nat → Int) (l : List RawCountry)
    (i : Nat) (ps : List PendingRecord)
    (h : processCountriesAux [] rand l i = .ok ps) :
    ∀ p ∈ ps, p.exchange_rate = none ∧ p.estimated_gdp = none := by
  induction l generalizing i ps with
  | nil =>
    simp only [processCountriesAux, Except.ok.injEq] at h
    rw [← h]
    intro p hp
    exact absurd hp (by simp)
  | cons c rest ih =>
    simp only [processCountriesAux] at h
    cases h1 : processOne [] (rand i) c with
    | error f => rw [h1] at h; exact absurd h (by simp)
    | ok p0 =>
      rw [h1] at h
      cases h2 : processCountriesAux [] rand rest (i + 1) with
      | error f => rw [h2] at h; exact absurd h (by simp)
      | ok ps0 =>
        rw [h2] at h
        simp only [Except.ok.injEq] at h
        rw [← h]
        intro p hp
        rcases List.mem_cons.mp hp with rfl | hmem
        · exact processOne_empty_table (rand i) c p h1
        · exact ih (i + 1) ps0 h2 p hmem

/-! ## Fixtures for the concrete instances below -/

/-- A constant injected random source. -/
def exRand : Nat → Int := fun _ => 1500

/-- A valid raw country with no currencies entry. -/
def exCountryOk : RawCountry := ⟨some "Alpha", none, none, some 5, none, none⟩

/-- A raw country with negative population (fails validation). -/
def exCountryNeg : RawCountry := ⟨some "Beta", none, none, some (-5), none, none⟩

/-- The empty system state: empty table, no cached image. -/
def exState0 : SysState := ⟨⟨[], 0⟩, none⟩

/-- The row produced by upserting `exCountryOk` at timestamp `"T"`. -/
def exRowAlpha : CountryRecord :=
  ⟨0, "Alpha", none, none, 5, none, none, none, none, "T"⟩

/-- The state after refreshing `exState0` with `[exCountryOk]` at `"T"`. -/
def exStateAfter : SysState :=
  ⟨⟨[exRowAlpha], 1⟩, some ⟨"Country Summary", 1, [], "T"⟩⟩

/-- A currency entry with code `EUR`. -/
def exCurrencyEUR : RawCurrency := ⟨some "EUR"⟩

/-- A currency entry with code `XYZ`. -/
def exCurrencyXYZ : RawCurrency := ⟨some "XYZ"⟩

/-! ## Claims -/

/-- Claim C1: whenever some fetched country record fails validation
(missing/empty name, or missing/negative population), the refresh aborts
with a `ValidationError` naming one of the two validated fields, the
observable state (store and cached report) is returned unchanged — no
record of the batch is committed, including records processed before the
offending one — and no summary report is regenerated. -/
theorem refresh_validation_aborts (countryData : List RawCountry)
    (ratesData : Option (List (String × ℚ))) (rand : Nat → Int) (now : String)
    (reportOk : Bool) (st : SysState)
    (h : ∃ c ∈ countryData, countryInvalid c = true) :
    ∃ f, (f = "name" ∨ f = "population") ∧
      refresh_countries (.ok countryData) (.ok ratesData) rand now reportOk st =
        (st, .error (.validationError f)) := by
  obtain ⟨f, hf, hfs⟩ :=
    processCountriesAux_error_of_invalid (ratesData.getD []) rand countryData 0 h
  exact ⟨f, hfs, refresh_countries_of_validation_error _ _ _ _ _ _ _ hf⟩

/-- Witness for C1 at a concrete batch whose second record has
`population = -5`. -/
theorem refresh_validation_aborts_witness :
    ∃ f, (f = "name" ∨ f = "population") ∧
      refresh_countries (.ok [exCountryOk, exCountryNeg]) (.ok (some []))
          exRand "T" true exState0 =
        (exState0, .error (.validationError f)) :=
  refresh_validation_aborts [exCountryOk, exCountryNeg] (some []) exRand "T"
    true exState0 ⟨exCountryNeg, by decide, by decide⟩

/-- Claim C2: in every successful refresh, every record upserted by the
batch ends up in the store carrying the one shared timestamp `now`
computed before the loop; in particular all records of the invocation
share the exact same `last_refreshed_at` value. -/
theorem refresh_timestamp_uniform (countryData : List RawCountry)
    (ratesData : Option (List (String × ℚ))) (rand : Nat → Int) (now : String)
    (reportOk : Bool) (st st' : SysState) (u : Unit)
    (hrun : refresh_countries (.ok countryData) (.ok ratesData) rand now
      reportOk st = (st', .ok u)) :
    ∃ ps, processCountries countryData ratesData rand = .ok ps ∧
      ∀ p ∈ ps,
        (∀ r ∈ st'.store.rows, r.name = p.name → r.last_refreshed_at = now) ∧
        (∃ r ∈ st'.store.rows, r.name = p.name ∧ r.last_refreshed_at = now) := by
  obtain ⟨ps, hps, hstore⟩ := refresh_countries_ok_inversion countryData
    ratesData rand now reportOk st st' u hrun
  refine ⟨ps, hps, ?_⟩
  intro p hp
  obtain ⟨hall, hex⟩ := upsertAll_batch_member ps st.store now p hp
  rw [hstore]
  refine ⟨hall, ?_⟩
  obtain ⟨r, hr, hname⟩ := hex
  exact ⟨r, hr, hname, hall r hr hname⟩

/-- Witness for C2 at a concrete one-record refresh. -/
theorem refresh_timestamp_uniform_witness :
    ∃ ps, processCountries [exCountryOk] (some []) exRand = .ok ps ∧
      ∀ p ∈ ps,
        (∀ r ∈ exStateAfter.store.rows, r.name = p.name →
          r.last_refreshed_at = "T") ∧
        (∃ r ∈ exStateAfter.store.rows, r.name = p.name ∧
          r.last_refreshed_at = "T") :=
  refresh_timestamp_uniform [exCountryOk] (some []) exRand "T" true exState0
    exStateAfter () (by decide)

/-- Claim C10: when the decoded exchange-rate response lacks a `rates`
key (or its `rates` table is empty), a refresh over valid country records
raises no error at all — in particular no `SourceUnavailable` — and every
record of the batch is built with `exchange_rate = null` and
`estimated_gdp = null`, regardless of its currency code. -/
theorem refresh_missing_rates_all_null (countryData : List RawCountry)
    (ratesData : Option (List (String × ℚ))) (rand : Nat → Int) (now : String)
    (st : SysState)
    (hrates : ratesData = none ∨ ratesData = some [])
    (hvalid : ∀ c ∈ countryData, countryInvalid c = false) :
    ∃ ps, processCountries countryData ratesData rand = .ok ps ∧
      (∀ p ∈ ps, p.exchange_rate = none ∧ p.estimated_gdp = none) ∧
      (refresh_countries (.ok countryData) (.ok ratesData) rand now true st).2 =
        .ok () := by
  have htable : ratesData.getD [] = [] := by
    rcases hrates with h | h <;> rw [h] <;> rfl
  obtain ⟨ps, hps⟩ :=
    processCountriesAux_ok_of_valid (ratesData.getD []) rand countryData 0 hvalid
  have hps2 : processCountries countryData ratesData rand = .ok ps := hps
  refine ⟨ps, hps2, ?_, ?_⟩
  · rw [htable] at hps
    exact processCountriesAux_empty_table rand countryData 0 ps hps
  · rw [refresh_countries_of_ok countryData ratesData rand now st ps hps2]

/-- Witness for C10: a country with currency code `EUR` refreshed against
a missing rate table. -/
theorem refresh_missing_rates_all_null_witness :
    ∃ ps, processCountries
        [⟨some "Alpha", none, none, some 5, none, some [exCurrencyEUR]⟩]
        none exRand = .ok ps ∧
      (∀ p ∈ ps, p.exchange_rate = none ∧ p.estimated_gdp = none) ∧
      (refresh_countries
        (.ok [⟨some "Alpha", none, none, some 5, none, some [exCurrencyEUR]⟩])
        (.ok none) exRand "T" true exState0).2 = .ok () :=
  refresh_missing_rates_all_null
    [⟨some "Alpha", none, none, some 5, none, some [exCurrencyEUR]⟩]
    none exRand "T" exState0 (Or.inl rfl) (by decide)

/-- Counterexample for C5: with a valid one-record batch and a failing
report step, the refresh request itself fails (an unhandled server
error), contradicting the claim that report-generation failure is not a
refresh failure; the batch is nevertheless committed. -/
theorem report_failure_fails_refresh_cex :
    refresh_countries (.ok [exCountryOk]) (.ok (some [])) exRand "T" false
        exState0 =
      (⟨⟨[exRowAlpha], 1⟩, none⟩, .error .serverError) := by decide

/-- Claim C5 (amended): when fetch, validation, upsert and commit all
succeed but the report step then fails, the committed batch is preserved
in the store and the cached image is left as it was, but the refresh
request itself fails with a generic server error (the source has no
exception handler around report generation); no degraded-success signal
exists. -/
theorem report_failure_semantics (countryData : List RawCountry)
    (ratesData : Option (List (String × ℚ))) (rand : Nat → Int) (now : String)
    (st : SysState) (ps : List PendingRecord)
    (h : processCountries countryData ratesData rand = .ok ps) :
    refresh_countries (.ok countryData) (.ok ratesData) rand now false st =
      ({ store := upsertAll st.store ps now, cache := st.cache },
       .error .serverError) :=
  refresh_countries_of_report_failure countryData ratesData rand now st ps h

/-- Witness for C5's amended theorem at a concrete batch. -/
theorem report_failure_semantics_witness :
    refresh_countries (.ok [exCountryOk]) (.ok (some [])) exRand "T" false
        exState0 =
      ({ store := upsertAll exState0.store
            [⟨"Alpha", none, none, 5, none, none, none, none⟩] "T"
         cache := exState0.cache }, .error .serverError) :=
  report_failure_semantics [exCountryOk] (some []) exRand "T" exState0
    [⟨"Alpha", none, none, 5, none, none, none, none⟩] (by decide)

/-- Claim C4: for a record whose first currency code is truthy and
resolves in the rate table to a usable (nonzero) rate, the estimator
yields exactly `population * m / rate`, for every population, rate and
injected multiplier `m` drawn from `[1000, 2000]`. -/
theorem estimator_formula (population m : Int) (c0 : RawCurrency)
    (rest : List RawCurrency) (ratesTable : List (String × ℚ)) (code : String)
    (r : ℚ) (hcode : c0.code = some code) (hne : ¬(code = ""))
    (hr : ratesTable.lookup code = some r) (hr0 : ¬(r = 0))
    (hm : 1000 ≤ m ∧ m ≤ 2000) :
    (currencyLogic population (some (c0 :: rest)) ratesTable m).2.2 =
      some (((population * m : Int) : ℚ) / r) := by
  simp [currencyLogic, hcode, hne, hr, hr0]

/-- Witness for C4 at population 5, rate 2, multiplier 1500. -/
theorem estimator_formula_witness :
    (currencyLogic 5 (some [exCurrencyEUR]) [("EUR", 2)] 1500).2.2 =
      some (((5 * 1500 : Int) : ℚ) / 2) :=
  estimator_formula 5 1500 exCurrencyEUR [] [("EUR", 2)] "EUR" 2 rfl
    (by decide) (by decide) (by decide) (by decide)

/-- Counterexample for C3: a currency code that is non-null and present
as a key in the rate table, but mapped to the rate 0 (falsy in Python):
the estimator leaves `estimated_gdp` null (while `exchange_rate` is the
non-null 0), refuting the claimed "iff". -/
theorem estimator_zero_rate_cex :
    (currencyLogic 10 (some [exCurrencyXYZ]) [("XYZ", 0)] 1500).1 = some "XYZ" ∧
    ([("XYZ", 0)] : List (String × ℚ)).lookup "XYZ" = some 0 ∧
    (currencyLogic 10 (some [exCurrencyXYZ]) [("XYZ", 0)] 1500).2.2 = none := by
  decide

/-- Claim C3 (amended): `estimated_gdp` is non-null iff the record's
currency code is a non-empty string that is present in the rate table
with a nonzero rate (the code's truthiness tests skip empty-string codes
and zero rates); and whenever the currency code is null, or present but
absent from the rate table, both `exchange_rate` and `estimated_gdp` are
null. -/
theorem estimator_null_semantics (population : Int)
    (currencies : Option (List RawCurrency)) (ratesTable : List (String × ℚ))
    (m : Int) :
    ((currencyLogic population currencies ratesTable m).2.2 ≠ none ↔
      ∃ code r, (currencyLogic population currencies ratesTable m).1 = some code ∧
        ¬(code = "") ∧ ratesTable.lookup code = some r ∧ ¬(r = 0)) ∧
    ((currencyLogic population currencies ratesTable m).1 = none →
      (currencyLogic population currencies ratesTable m).2.1 = none ∧
      (currencyLogic population currencies ratesTable m).2.2 = none) ∧
    (∀ code, (currencyLogic population currencies ratesTable m).1 = some code →
      ratesTable.lookup code = none →
      (currencyLogic population currencies ratesTable m).2.1 = none ∧
      (currencyLogic population currencies ratesTable m).2.2 = none) := by
  rcases currencies with _ | ⟨_ | ⟨c0, rest⟩⟩
  · refine ⟨by simp [currencyLogic], fun _ => ⟨rfl, rfl⟩, fun code hcode _ => ?_⟩
    exact absurd hcode (by simp [currencyLogic])
  · refine ⟨by simp [currencyLogic], fun _ => ⟨rfl, rfl⟩, fun code hcode _ => ?_⟩
    exact absurd hcode (by simp [currencyLogic])
  · rcases hc : c0.code with _ | code
    · have heq : currencyLogic population (some (c0 :: rest)) ratesTable m =
          (none, none, none) := by
        simp [currencyLogic, hc]
      rw [heq]
      refine ⟨by simp, fun _ => ⟨rfl, rfl⟩, fun code2 hcode2 _ => ?_⟩
      exact absurd hcode2 (by simp)
    · by_cases hce : code = ""
      · have heq : currencyLogic population (some (c0 :: rest)) ratesTable m =
            (some code, none, none) := by
          simp [currencyLogic, hc, hce]
        rw [heq]
        refine ⟨?_, fun habs => absurd habs (by simp), fun code2 hcode2 _ => ⟨rfl, rfl⟩⟩
        constructor
        · intro habs; exact absurd rfl habs
        · rintro ⟨code2, r2, hcode2, hne2, -, -⟩
          have : code = code2 := by simpa using hcode2
          exact absurd (hce ▸ this.symm) hne2
      · cases hl : ratesTable.lookup code with
        | none =>
          have heq : currencyLogic population (some (c0 :: rest)) ratesTable m =
              (some code, none, none) := by
            simp [currencyLogic, hc, hce, hl]
          rw [heq]
          refine ⟨?_, fun habs => absurd habs (by simp), fun code2 hcode2 _ => ⟨rfl, rfl⟩⟩
          constructor
          · intro habs; exact absurd rfl habs
          · rintro ⟨code2, r2, hcode2, -, hlook2, -⟩
            have he : code = code2 := by simpa using hcode2
            rw [← he, hl] at hlook2
            exact absurd hlook2 (by simp)
        | some r =>
          by_cases hr0 : r = 0
          · have heq : currencyLogic population (some (c0 :: rest)) ratesTable m =
                (some code, some r, none) := by
              simp [currencyLogic, hc, hce, hl, hr0]
            rw [heq]
            refine ⟨?_, fun habs => absurd habs (by simp), fun code2 hcode2 hlook2 => ?_⟩
            · constructor
              · intro habs; exact absurd rfl habs
              · rintro ⟨code2, r2, hcode2, -, hlook2, hr2⟩
                have he : code = code2 := by simpa using hcode2
                rw [← he, hl] at hlook2
                have : r = r2 := by simpa using hlook2
                exact absurd (hr0 ▸ this.symm).symm (fun h2 => hr2 h2.symm)
            · have he : code = code2 := by simpa using hcode2
              rw [← he, hl] at hlook2
              exact absurd hlook2 (by simp)
          · have heq : currencyLogic population (some (c0 :: rest)) ratesTable m =
                (some code, some r,
                  some (((population * m : Int) : ℚ) / r)) := by
              simp [currencyLogic, hc, hce, hl, hr0]
            rw [heq]
            refine ⟨?_, fun habs => absurd habs (by simp), fun code2 hcode2 hlook2 => ?_⟩
            · constructor
              · intro _; exact ⟨code, r, rfl, hce, hl, hr0⟩
              · intro _; simp
            · have he : code = code2 := by simpa using hcode2
              rw [← he, hl] at hlook2
              exact absurd hlook2 (by simp)

/-- Witness for C3's amended theorem: a resolvable nonzero rate yields a
non-null GDP. -/
theorem estimator_null_semantics_witness :
    (currencyLogic 5 (some [exCurrencyEUR]) [("EUR", 2)] 1500).2.2 ≠ none :=
  (estimator_null_semantics 5 (some [exCurrencyEUR]) [("EUR", 2)] 1500).1.mpr
    ⟨"EUR", 2, by decide, by decide, by decide, by decide⟩

/-! ## Helper lemmas: query filtering -/

lemma applySort_none (rows : List CountryRecord) : applySort none rows = rows := rfl

lemma filterRegion_not_truthy (region : Option String)
    (rows : List CountryRecord) (h : strTruthy region = false) :
    filterRegion region rows = rows := by
  simp [filterRegion, h]

lemma filterCurrency_not_truthy (currency : Option String)
    (rows : List CountryRecord) (h : strTruthy currency = false) :
    filterCurrency currency rows = rows := by
  simp [filterCurrency, h]

/-! ## More fixtures -/

/-- A row with null GDP. -/
def exRowNull : CountryRecord := ⟨0, "A", none, none, 1, none, none, none, none, "T"⟩

/-- A row with GDP 5. -/
def exRowFive : CountryRecord := ⟨1, "B", none, none, 1, none, none, some 5, none, "T"⟩

/-- A store holding a non-null-GDP row before a null-GDP row. -/
def exStoreSort : Store := ⟨[exRowFive, exRowNull], 2⟩

/-- A store holding the single row `Chad`. -/
def exRowChad : CountryRecord := ⟨0, "Chad", none, none, 1, none, none, none, none, "T"⟩

/-- The one-row `Chad` store. -/
def exStoreChad : Store := ⟨[exRowChad], 1⟩

/-- A second row whose name differs from `Chad` only in letter case. -/
def exRowCHAD : CountryRecord := ⟨1, "CHAD", none, none, 2, none, none, none, none, "T"⟩

/-- A store holding both `Chad` and `CHAD` (the exact-name uniqueness
constraint of the table allows case variants). -/
def exStoreTwoChads : Store := ⟨[exRowChad, exRowCHAD], 2⟩

/-- The spec's required null placement for `gdp_desc` output: all
null-GDP rows at the end of the list (an output with no null-GDP rows
satisfies this vacuously, covering the "excluded" option). -/
def nullsLast : List CountryRecord → Bool
  | [] => true
  | r :: rest =>
    if r.estimated_gdp.isNone then rest.all (fun x => x.estimated_gdp.isNone)
    else nullsLast rest

/-- Counterexample for C6: under `sort=gdp_desc` the store's null-GDP row
is returned first, before a non-null row — Postgres sorts `NULL` as
largest, so `DESC` puts nulls first, not "last or excluded" as claimed. -/
theorem sort_nulls_first_cex :
    get_countries_with_filtering none none (some "gdp_desc") exStoreSort =
      .ok [exRowNull, exRowFive] ∧
    nullsLast [exRowNull, exRowFive] = false := by decide

/-- Claim C6 (amended): the sort parameter recognizes exactly `gdp_desc`
and `gdp_asc` case-insensitively and any other value is ignored (the
query behaves as if no sort were supplied, with no error); when
`gdp_desc` applies, the returned rows are pairwise ordered by
`gdpDescRel`, i.e. descending GDP with null-GDP rows sorted first
(Postgres treats `NULL` as larger than every value), not last. -/
theorem sort_param_semantics (region currency : Option String) (s : Store) :
    (∀ j : String, ¬(strLower j = "gdp_desc".data) →
      ¬(strLower j = "gdp_asc".data) →
      get_countries_with_filtering region currency (some j) s =
        get_countries_with_filtering region currency none s) ∧
    (∀ j rows, strLower j = "gdp_desc".data →
      get_countries_with_filtering region currency (some j) s = .ok rows →
      rows.Pairwise gdpDescRel) := by
  constructor
  · intro j h1 h2
    have hsid : ∀ rows : List CountryRecord, applySort (some j) rows = rows :=
      fun rows => applySort_unrecognized (some j) (by simpa using h1)
        (by simpa using h2) rows
    cases hra : strTruthy region <;> cases hrc : strTruthy currency <;>
      cases hj : strTruthy (some j) <;>
        simp [get_countries_with_filtering, hra, hrc, hj, hsid, applySort_none,
          filterRegion_not_truthy, filterCurrency_not_truthy]
  · intro j rows hj hok
    have hne : ¬(j = "") := by
      intro he
      rw [he] at hj
      exact absurd hj (by decide)
    have hjt : strTruthy (some j) = true := by
      simp [strTruthy]
      exact hne
    have hcond : (strTruthy region || strTruthy currency ||
        strTruthy (some j)) = true := by
      simp [hjt]
    have hbig : get_countries_with_filtering region currency (some j) s =
        (if (List.insertionSort gdpDescRel
            (filterCurrency currency (filterRegion region s.rows))).isEmpty then
          .error .notFound
         else .ok (List.insertionSort gdpDescRel
            (filterCurrency currency (filterRegion region s.rows)))) := by
      unfold get_countries_with_filtering
      rw [hcond, if_pos rfl, applySort_desc j hj]
    rw [hbig] at hok
    by_cases he : (List.insertionSort gdpDescRel
        (filterCurrency currency (filterRegion region s.rows))).isEmpty
    · rw [if_pos he] at hok
      exact absurd hok (by simp)
    · rw [if_neg he] at hok
      have hrw : List.insertionSort gdpDescRel
          (filterCurrency currency (filterRegion region s.rows)) = rows := by
        simpa using hok
      rw [← hrw]
      exact List.sorted_insertionSort gdpDescRel
        (filterCurrency currency (filterRegion region s.rows))

/-- Witness for C6's amended theorem: on the concrete two-row store, the
`gdp_desc` output is pairwise ordered by `gdpDescRel`. -/
theorem sort_param_semantics_witness :
    get_countries_with_filtering none none (some "gdp_desc") exStoreSort =
      .ok [exRowNull, exRowFive] ∧
    ([exRowNull, exRowFive] : List CountryRecord).Pairwise gdpDescRel :=
  ⟨by decide, (sort_param_semantics none none exStoreSort).2 "gdp_desc"
    [exRowNull, exRowFive] (by decide) (by decide)⟩

/-- Claim C7: with no filters supplied, the query returns all rows, so
whenever it returns a row list its length equals the `/status`
`total_countries` count; and it can only fail with the empty-result 404
when that count is 0. -/
theorem query_count_matches_status (s : Store) :
    (∀ rows, get_countries_with_filtering none none none s = .ok rows →
      rows.length = (get_status s).1) ∧
    (∀ e, get_countries_with_filtering none none none s = .error e →
      (get_status s).1 = 0) := by
  have hred : get_countries_with_filtering none none none s =
      (if s.rows.isEmpty then .error .notFound else .ok s.rows) := rfl
  constructor
  · intro rows h
    rw [hred] at h
    by_cases he : s.rows.isEmpty
    · rw [if_pos he] at h
      exact absurd h (by simp)
    · rw [if_neg he] at h
      have hrw : s.rows = rows := by simpa using h
      rw [← hrw]
      rfl
  · intro e h
    rw [hred] at h
    by_cases he : s.rows.isEmpty
    · show s.rows.length = 0
      simp [List.isEmpty_iff.mp he]
    · rw [if_neg he] at h
      exact absurd h (by simp)

/-- Witness for C7 on the concrete two-row store. -/
theorem query_count_matches_status_witness :
    get_countries_with_filtering none none none exStoreSort =
      .ok [exRowFive, exRowNull] ∧
    ([exRowFive, exRowNull] : List CountryRecord).length =
      (get_status exStoreSort).1 :=
  ⟨by decide, (query_count_matches_status exStoreSort).1
    [exRowFive, exRowNull] (by decide)⟩

/-- Counterexample for C8: the lookup argument `"C%"` equals no stored
name up to letter case, yet `getByName` returns the `Chad` row, because
`ILIKE` treats `%` as a wildcard — the claimed "case-insensitive exact
match, NotFound exactly when no stored name equals the argument" is
false. -/
theorem getByName_wildcard_cex :
    (∀ r ∈ exStoreChad.rows, ciEq r.name "C%" = false) ∧
    get_country_by_name "C%" exStoreChad = .ok exRowChad := by decide

/-- Claim C8 (amended): `getByName` is a case-insensitive LIKE pattern
match (`%`, `_`, backslash act as pattern syntax); for every argument
containing none of those characters it is a case-insensitive exact
match: a returned record is a stored row whose name equals the argument
up to letter case, and it returns NotFound exactly when no stored name
equals the argument case-insensitively. -/
theorem getByName_ci_exact_plain (name : String) (s : Store)
    (hplain : plainPattern name = true) :
    (∀ r, get_country_by_name name s = .ok r →
      r ∈ s.rows ∧ ciEq r.name name = true) ∧
    (get_country_by_name name s = .error .notFound ↔
      ∀ r ∈ s.rows, ciEq r.name name = false) := by
  constructor
  · intro r h
    obtain ⟨hm2, hl⟩ := get_country_by_name_ok name s r h
    refine ⟨hm2, ?_⟩
    rw [← ilike_plain r.name name hplain]
    exact hl
  · rw [get_country_by_name_notFound_iff]
    constructor
    · intro hall r hr
      rw [← ilike_plain r.name name hplain]
      exact hall r hr
    · intro hall r hr
      rw [ilike_plain r.name name hplain]
      exact hall r hr

/-- Witness for C8's amended theorem: the wildcard-free argument `"chad"`
finds the `Chad` row case-insensitively. -/
theorem getByName_ci_exact_plain_witness :
    get_country_by_name "chad" exStoreChad = .ok exRowChad ∧
    exRowChad ∈ exStoreChad.rows ∧ ciEq exRowChad.name "chad" = true :=
  ⟨by decide, (getByName_ci_exact_plain "chad" exStoreChad (by decide)).1
    exRowChad (by decide)⟩

/-- Counterexample for C9: deleting `"Chad"` succeeds and removes exactly
that row, but a subsequent `getByName "Chad"` does not yield NotFound —
it finds the case-variant row `CHAD`, because the read path matches
case-insensitively while the delete path matches case-sensitively. -/
theorem delete_then_get_cex :
    (delete_country_by_name "Chad" exStoreTwoChads).2 = .ok () ∧
    (delete_country_by_name "Chad" exStoreTwoChads).1.rows = [exRowCHAD] ∧
    get_country_by_name "Chad"
      (delete_country_by_name "Chad" exStoreTwoChads).1 = .ok exRowCHAD := by
  decide

/-- A list's length splits over a Boolean predicate and its negation. -/
lemma filter_partition_length {α : Type} (p : α → Bool) (l : List α) :
    (l.filter p).length + (l.filter (fun a => !(p a))).length = l.length := by
  induction l with
  | nil => rfl
  | cons a l ih =>
    by_cases h : p a = true <;>
      simp [List.filter, h, ← ih] <;> omega

/-- Claim C9 (amended): `deleteByName` matches case-sensitively and
exactly; when no row has the exact name it returns NotFound and the store
is unchanged; when exactly one row has that exact name it removes exactly
that one row (all other rows survive and no row with the name remains);
a subsequent `getByName` for the same name yields NotFound provided no
remaining row's name matches the argument case-insensitively (the read
path is case-insensitive, so a case-variant row can still be found). -/
theorem deleteByName_semantics (name : String) (s : Store) :
    ((∀ r ∈ s.rows, ¬(r.name = name)) →
      delete_country_by_name name s = (s, .error .notFound)) ∧
    ((s.rows.filter (fun r => r.name = name)).length = 1 →
      (delete_country_by_name name s).2 = .ok () ∧
      (delete_country_by_name name s).1.rows.length + 1 = s.rows.length ∧
      (∀ r ∈ (delete_country_by_name name s).1.rows, ¬(r.name = name)) ∧
      (∀ r ∈ (delete_country_by_name name s).1.rows, r ∈ s.rows) ∧
      ((∀ r ∈ (delete_country_by_name name s).1.rows,
          ilike r.name name = false) →
        get_country_by_name name (delete_country_by_name name s).1 =
          .error .notFound)) := by
  constructor
  · intro hnone
    have hany : s.rows.any (fun r => r.name = name) = false := by
      rw [List.any_eq_false]
      intro r hr
      simpa using hnone r hr
    unfold delete_country_by_name
    rw [hany]
    rfl
  · intro hcount
    have hex : ∃ r ∈ s.rows, r.name = name := by
      rcases hf : s.rows.filter (fun r => r.name = name) with _ | ⟨r, rest⟩
      · rw [hf] at hcount
        exact absurd hcount (by simp)
      · refine ⟨r, ?_, ?_⟩
        · exact List.mem_of_mem_filter (hf ▸ List.mem_cons_self r rest)
        · have := List.of_mem_filter (hf ▸ List.mem_cons_self r rest)
          simpa using this
    have hany : s.rows.any (fun r => r.name = name) = true := by
      rw [List.any_eq_true]
      obtain ⟨r, hr, he⟩ := hex
      exact ⟨r, hr, by simpa using he⟩
    have hdel : delete_country_by_name name s =
        ({ s with rows := s.rows.filter (fun r => !(r.name = name : Bool)) },
         .ok ()) := by
      unfold delete_country_by_name
      rw [hany]
      rfl
    rw [hdel]
    refine ⟨rfl, ?_, ?_, ?_, ?_⟩
    · have hsplit := filter_partition_length
        (fun r : CountryRecord => (r.name = name : Bool)) s.rows
      rw [hcount] at hsplit
      show (s.rows.filter (fun r => !(r.name = name : Bool))).length + 1 =
        s.rows.length
      omega
    · intro r hr
      have := List.of_mem_filter hr
      simpa using this
    · intro r hr
      exact List.mem_of_mem_filter hr
    · intro hall
      exact (get_country_by_name_notFound_iff name _).mpr hall

/-- Witness for C9's amended theorem: deleting the only `Chad` row leaves
an empty store and `getByName` then misses. -/
theorem deleteByName_semantics_witness :
    (delete_country_by_name "Chad" exStoreChad).2 = .ok () ∧
    (delete_country_by_name "Chad" exStoreChad).1.rows.length + 1 =
      exStoreChad.rows.length ∧
    get_country_by_name "Chad" (delete_country_by_name "Chad" exStoreChad).1 =
      .error .notFound := by
  obtain ⟨-, h⟩ := deleteByName_semantics "Chad" exStoreChad
  obtain ⟨h1, h2, h3, h4, h5⟩ := h (by decide)
  exact ⟨h1, h2, h5 (by decide)⟩
